import Mathlib

/-!
# Verification of the `control-flow` todo application

Shallow embedding of `src/ffww/todo_app.py`.

The mutable object `TodoApp` holds a list `self.tasks` of dicts with keys
`id` (Python int), `description` (str) and `completed` (bool); we model such a
dict as the structure `Task` below, and each mutating method as a pure
function from the task list (plus arguments) to the new task list, paired
with the method's return value where it has one.

Persistence (`json.dump` / `json.load`) is modelled at the level of JSON
values: the spec (§6) treats the structured-text encode/decode capability as
an opaque external service, so the backing file is modelled as either text
that parses to a JSON value or text that raises `JSONDecodeError`.

The command loop in `main` lowercases and strips each input line as a whole
(`input(...).strip().lower()`); lines are modelled as `List Char`, with
`str.strip` and `str.lower` modelled over the ASCII range (Python also strips
and lowercases some non-ASCII characters; no claim depends on those).
-/

namespace TodoApp

/-- A task record, i.e. one of the dicts
`{'id': ..., 'description': ..., 'completed': ...}` stored in `self.tasks`. -/
structure Task where
  id : Int
  description : String
  completed : Bool
  deriving DecidableEq, Repr

/-- `TodoApp.add_task`: appends `{'id': len(self.tasks) + 1,
'description': description, 'completed': False}` to `self.tasks`. -/
def add_task (tasks : List Task) (description : String) : List Task :=
  tasks ++ [{ id := (tasks.length : Int) + 1, description := description, completed := false }]

/-- `TodoApp.list_tasks`: returns `self.tasks`. -/
def list_tasks (tasks : List Task) : List Task :=
  tasks

/-- `TodoApp.mark_complete`: scans `self.tasks` in order; on the first task
with `task['id'] == task_id` sets `task['completed'] = True` and returns
`True`; returns `False` if no task matches.  Result: the new task list and
the returned boolean. -/
def mark_complete (tasks : List Task) (task_id : Int) : List Task × Bool :=
  match tasks with
  | [] => ([], false)
  | t :: ts =>
    if t.id = task_id then ({ t with completed := true } :: ts, true)
    else
      let r := mark_complete ts task_id
      (t :: r.1, r.2)

/-- The scan in `TodoApp.delete_task`: the first task (in list order) whose
`id` equals `task_id`, if any. -/
def findById (tasks : List Task) (task_id : Int) : Option Task :=
  match tasks with
  | [] => none
  | t :: ts => if t.id = task_id then some t else findById ts task_id

/-- Python `list.remove(x)`: removes the first element equal (by value) to
`x`.  (Python raises `ValueError` when `x` is absent; `delete_task` only
calls it on a member, so the out-of-domain branch returns the list.) -/
def removeFirst (tasks : List Task) (x : Task) : List Task :=
  match tasks with
  | [] => []
  | t :: ts => if t = x then ts else t :: removeFirst ts x

/-- `TodoApp.delete_task`: scans for the first task with
`task['id'] == task_id`; if found, calls `self.tasks.remove(task)` and
returns `True`, else returns `False`. -/
def delete_task (tasks : List Task) (task_id : Int) : List Task × Bool :=
  match findById tasks task_id with
  | some t => (removeFirst tasks t, true)
  | none => (tasks, false)

/-- `TodoApp.clear_completed`: `self.tasks = [t for t in self.tasks if not
t['completed']]`. -/
def clear_completed (tasks : List Task) : List Task :=
  tasks.filter (fun t => !t.completed)

/-- `TodoApp.get_stats`: `{'total': len(self.tasks), 'completed': len([t for
t in self.tasks if t['completed']])}`. -/
def get_stats (tasks : List Task) : Nat × Nat :=
  (tasks.length, (tasks.filter (fun t => t.completed)).length)

/-! ## Persistence

`save_tasks` runs `json.dump(self.tasks, f)`, overwriting the backing file;
`load_tasks` checks `os.path.exists`, runs `json.load` and returns `[]` on
`JSONDecodeError` or when the file does not exist. -/

/-- A JSON value, as produced by Python's `json` module on the data this
program writes (ints, strings, booleans, lists, insertion-ordered dicts). -/
inductive Json where
  | null : Json
  | bool (b : Bool) : Json
  | num (n : Int) : Json
  | str (s : String) : Json
  | arr (elems : List Json) : Json
  | obj (fields : List (String × Json)) : Json

/-- The JSON value `json.dump` writes for one task dict (Python dicts keep
insertion order, so the keys appear as in `add_task`). -/
def taskToJson (t : Task) : Json :=
  .obj [("id", .num t.id), ("description", .str t.description), ("completed", .bool t.completed)]

/-- The task dict a JSON value represents, when it has exactly the shape
written by `taskToJson`. -/
def jsonToTask (j : Json) : Option Task :=
  match j with
  | .obj [("id", .num i), ("description", .str d), ("completed", .bool c)] =>
    some { id := i, description := d, completed := c }
  | _ => none

/-- The JSON value `json.dump(self.tasks, f)` writes: an array of task
objects. -/
def tasksToJson (tasks : List Task) : Json :=
  .arr (tasks.map taskToJson)

/-- The task list a JSON value represents, when it is an array of task
objects. -/
def jsonToTasks (j : Json) : Option (List Task) :=
  match j with
  | .arr es => es.mapM jsonToTask
  | _ => none

/-- The content of the backing file: either text that `json.load` parses to
a JSON value, or text on which it raises `JSONDecodeError` (the raw text is
carried so the fallback is proved for every malformed content). -/
inductive FileContent where
  | jsonText (j : Json) : FileContent
  | nonJson (raw : String) : FileContent

/-- `json.load(f)`: the parsed value, or a `JSONDecodeError`. -/
def jsonLoad (fc : FileContent) : Except String Json :=
  match fc with
  | .jsonText j => .ok j
  | .nonJson _ => .error "JSONDecodeError"

/-- `TodoApp.save_tasks`: overwrites the backing file with the serialization
of the current task list (which parses back to `tasksToJson tasks`). -/
def save_tasks (tasks : List Task) : FileContent :=
  .jsonText (tasksToJson tasks)

/-- `TodoApp.load_tasks` over a file state (`none` = `os.path.exists` is
false): returns `[]` when the file is absent or `json.load` raises
`JSONDecodeError`, else the parsed task list.  (The code returns the parsed
value unchecked; a parseable value that is not a task-object array would put
a non-list in `self.tasks`, which the typed state cannot hold — no claim
depends on that case, and this model maps it to `[]`.) -/
def load_tasks (file : Option FileContent) : List Task :=
  match file with
  | none => []
  | some fc =>
    match jsonLoad fc with
    | .ok j => (jsonToTasks j).getD []
    | .error _ => []

/-! ## Command interpreter (`main`)

`main` reads a line, computes `command = input(...).strip().lower()` and
dispatches on it through an `if/elif` chain. -/

/-- Python `str.strip()` whitespace, restricted to ASCII (Python also strips
some non-ASCII whitespace; no claim involves it). -/
def pyIsSpace (c : Char) : Bool :=
  c = ' ' || c = '\t' || c = '\n' || c = '\r' || c = '\x0b' || c = '\x0c'

/-- Python `str.strip()`: drop leading and trailing whitespace. -/
def pyStrip (cs : List Char) : List Char :=
  ((cs.dropWhile pyIsSpace).reverse.dropWhile pyIsSpace).reverse

/-- Python `str.lower()` on one character, restricted to ASCII (Python also
lowercases non-ASCII letters; no claim involves them). -/
def pyLowerChar (c : Char) : Char :=
  if 'A' ≤ c ∧ c ≤ 'Z' then Char.ofNat (c.toNat + 32) else c

/-- Python `str.lower()`, character by character. -/
def pyLower (cs : List Char) : List Char :=
  cs.map pyLowerChar

/-- What one iteration of the `main` loop decides to do with a line. -/
inductive Action where
  | help : Action
  | add (description : List Char) : Action
  | listCmd : Action
  | complete (arg : List Char) : Action
  | deleteCmd (arg : List Char) : Action
  | clearCmd : Action
  | stats : Action
  | quit : Action
  | invalid : Action
  deriving DecidableEq, Repr

/-- The `if/elif` chain of `main` on `command = line.strip().lower()`:
`'h'`, `startswith('a ')` (payload `command[2:]`), `'l'`,
`startswith('c ')`, `startswith('d ')`, `'x'`, `'s'`, `'q'`, else invalid. -/
def dispatch (line : List Char) : Action :=
  let command := pyLower (pyStrip line)
  if command = ['h'] then .help
  else if ['a', ' '].isPrefixOf command then .add (command.drop 2)
  else if command = ['l'] then .listCmd
  else if ['c', ' '].isPrefixOf command then .complete (command.drop 2)
  else if ['d', ' '].isPrefixOf command then .deleteCmd (command.drop 2)
  else if command = ['x'] then .clearCmd
  else if command = ['s'] then .stats
  else if command = ['q'] then .quit
  else .invalid

/-- Python `int(s)` on the argument of `c`/`d`, restricted to the strings
these commands can produce: optional surrounding whitespace, optional sign,
then decimal digits (Python additionally accepts underscore separators and
non-ASCII digits; no claim involves them).  `none` models `ValueError`. -/
def pyParseInt (cs : List Char) : Option Int :=
  let t := pyStrip cs
  let core : List Char → Option Nat := fun ds =>
    if ds ≠ [] ∧ ds.all Char.isDigit then
      some (ds.foldl (fun n c => 10 * n + (c.toNat - '0'.toNat)) 0)
    else none
  match t with
  | '+' :: ds => (core ds).map (fun n => (n : Int))
  | '-' :: ds => (core ds).map (fun n => -(n : Int))
  | ds => (core ds).map (fun n => (n : Int))

/-- The effect of one `main`-loop iteration on the task list (`help`,
`list`, `stats`, `quit` and invalid input leave the store untouched; an
unparseable `<id>` is caught by the `except ValueError` and mutates
nothing). -/
def mainStep (tasks : List Task) (line : List Char) : List Task :=
  match dispatch line with
  | .add d => add_task tasks (String.mk d)
  | .complete arg =>
    match pyParseInt arg with
    | some tid => (mark_complete tasks tid).1
    | none => tasks
  | .deleteCmd arg =>
    match pyParseInt arg with
    | some tid => (delete_task tasks tid).1
    | none => tasks
  | .clearCmd => clear_completed tasks
  | _ => tasks

theorem jsonToTask_taskToJson (t : Task) : jsonToTask (taskToJson t) = some t := by
  cases t
  rfl

theorem jsonToTasks_tasksToJson (ts : List Task) :
    jsonToTasks (tasksToJson ts) = some ts := by
  induction ts with
  | nil => rfl
  | cons t ts ih =>
    simp only [jsonToTasks, tasksToJson, List.map_cons, List.mapM_cons,
      jsonToTask_taskToJson] at ih ⊢
    rw [ih]
    rfl

theorem dispatch_of_add (line : List Char)
    (h : List.isPrefixOf ['a', ' '] (pyLower (pyStrip line)) = true) :
    dispatch line = Action.add ((pyLower (pyStrip line)).drop 2) := by
  have hne : pyLower (pyStrip line) ≠ ['h'] := by
    intro he
    rw [he] at h
    exact absurd h (by decide)
  unfold dispatch
  simp only [if_neg hne, h, if_true]

end TodoApp

namespace TodoApp

/-! ## Supporting lemmas -/

theorem mark_complete_snd_iff (ts : List Task) (tid : Int) :
    (mark_complete ts tid).2 = true ↔ ∃ t ∈ ts, t.id = tid := by
  induction ts with
  | nil => simp [mark_complete]
  | cons t ts ih =>
    by_cases h : t.id = tid
    · simp [mark_complete, h]
    · simp [mark_complete, h, ih]

theorem mark_complete_snd_false (ts : List Task) (tid : Int)
    (h : (mark_complete ts tid).2 = false) : (mark_complete ts tid).1 = ts := by
  induction ts with
  | nil => rfl
  | cons t ts ih =>
    by_cases ht : t.id = tid
    · simp [mark_complete, ht] at h
    · simp only [mark_complete, if_neg ht] at h ⊢
      exact congrArg (t :: ·) (ih h)

theorem mark_complete_found (ts : List Task) (tid : Int)
    (h : (mark_complete ts tid).2 = true) :
    ∃ pre t post, ts = pre ++ t :: post ∧ t.id = tid ∧ (∀ u ∈ pre, u.id ≠ tid) ∧
      (mark_complete ts tid).1 = pre ++ { t with completed := true } :: post := by
  induction ts with
  | nil => simp [mark_complete] at h
  | cons t ts ih =>
    by_cases ht : t.id = tid
    · exact ⟨[], t, ts, rfl, ht, by simp, by simp [mark_complete, ht]⟩
    · simp only [mark_complete, if_neg ht] at h ⊢
      obtain ⟨pre, u, post, hts, hu, hpre, hres⟩ := ih h
      refine ⟨t :: pre, u, post, by rw [hts]; rfl, hu, ?_, ?_⟩
      · intro v hv
        rcases List.mem_cons.mp hv with rfl | hv
        · exact ht
        · exact hpre v hv
      · rw [hres]; rfl

theorem mark_complete_length (ts : List Task) (tid : Int) :
    (mark_complete ts tid).1.length = ts.length := by
  induction ts with
  | nil => rfl
  | cons t ts ih =>
    by_cases ht : t.id = tid
    · simp [mark_complete, ht]
    · simp [mark_complete, ht, ih]

theorem mark_complete_get (ts : List Task) (tid : Int) (i : Nat)
    (hi : i < ts.length) (hi' : i < (mark_complete ts tid).1.length) :
    (mark_complete ts tid).1.get ⟨i, hi'⟩ = ts.get ⟨i, hi⟩ ∨
    (mark_complete ts tid).1.get ⟨i, hi'⟩ = { ts.get ⟨i, hi⟩ with completed := true } := by
  induction ts generalizing i with
  | nil => simp at hi
  | cons t ts ih =>
    by_cases ht : t.id = tid
    · cases i with
      | zero => right; simp [mark_complete, ht]
      | succ j => left; simp [mark_complete, ht]
    · cases i with
      | zero => left; simp [mark_complete, ht]
      | succ j =>
        have hj : j < ts.length := Nat.lt_of_succ_lt_succ hi
        have hj' : j < (mark_complete ts tid).1.length := by
          rw [mark_complete_length]; exact hj
        have h2 := ih j hj hj'
        simpa [mark_complete, ht] using h2


theorem findById_id (ts : List Task) (tid : Int) (t : Task)
    (h : findById ts tid = some t) : t.id = tid := by
  induction ts with
  | nil => simp [findById] at h
  | cons u ts ih =>
    by_cases hu : u.id = tid
    · simp only [findById, if_pos hu] at h
      cases h; exact hu
    · simp only [findById, if_neg hu] at h
      exact ih h

theorem findById_isSome_iff (ts : List Task) (tid : Int) :
    (findById ts tid).isSome = true ↔ ∃ t ∈ ts, t.id = tid := by
  induction ts with
  | nil => simp [findById]
  | cons u ts ih =>
    by_cases hu : u.id = tid
    · simp [findById, hu]
    · simp [findById, hu, ih]

theorem delete_task_snd_iff (ts : List Task) (tid : Int) :
    (delete_task ts tid).2 = true ↔ ∃ t ∈ ts, t.id = tid := by
  rw [← findById_isSome_iff]
  unfold delete_task
  cases h : findById ts tid <;> simp [h]

theorem delete_task_snd_false (ts : List Task) (tid : Int)
    (h : (delete_task ts tid).2 = false) : (delete_task ts tid).1 = ts := by
  unfold delete_task at h ⊢
  cases hf : findById ts tid <;> simp [hf] at h ⊢

theorem delete_task_found (ts : List Task) (tid : Int)
    (h : (delete_task ts tid).2 = true) :
    ∃ pre t post, ts = pre ++ t :: post ∧ t.id = tid ∧ (∀ u ∈ pre, u.id ≠ tid) ∧
      (delete_task ts tid).1 = pre ++ post := by
  induction ts with
  | nil => simp [delete_task, findById] at h
  | cons t ts ih =>
    by_cases ht : t.id = tid
    · refine ⟨[], t, ts, rfl, ht, by simp, ?_⟩
      simp [delete_task, findById, ht, removeFirst]
    · have hf : findById (t :: ts) tid = findById ts tid := by
        simp [findById, ht]
      cases hu : findById ts tid with
      | none =>
        exfalso
        simp [delete_task, hf, hu] at h
      | some u =>
        have hrec : (delete_task ts tid).2 = true := by
          simp [delete_task, hu]
        obtain ⟨pre, v, post, hts, hv, hpre, hres⟩ := ih hrec
        have htu : t ≠ u := by
          intro he
          exact ht (he ▸ findById_id ts tid u hu)
        refine ⟨t :: pre, v, post, by rw [hts]; rfl, hv, ?_, ?_⟩
        · intro w hw
          rcases List.mem_cons.mp hw with rfl | hw
          · exact ht
          · exact hpre w hw
        · have h1 : (delete_task (t :: ts) tid).1 = removeFirst (t :: ts) u := by
            simp [delete_task, hf, hu]
          have h2 : (delete_task ts tid).1 = removeFirst ts u := by
            simp [delete_task, hu]
          rw [h1, removeFirst, if_neg htu, ← h2, hres]
          rfl

theorem delete_task_sublist (ts : List Task) (tid : Int) :
    List.Sublist (delete_task ts tid).1 ts := by
  cases h : (delete_task ts tid).2 with
  | false => rw [delete_task_snd_false ts tid h]
  | true =>
    obtain ⟨pre, t, post, hts, _, _, hres⟩ := delete_task_found ts tid h
    rw [hres, hts]
    exact List.Sublist.append_left (List.sublist_cons_self t post) pre

theorem add_task_take (ts : List Task) (d : String) :
    (add_task ts d).take ts.length = ts := by
  simp [add_task]

theorem mark_complete_twice (ts : List Task) (tid : Int)
    (h : (mark_complete ts tid).2 = true) :
    mark_complete (mark_complete ts tid).1 tid = ((mark_complete ts tid).1, true) := by
  induction ts with
  | nil => simp [mark_complete] at h
  | cons t ts ih =>
    by_cases ht : t.id = tid
    · have h1 : mark_complete (t :: ts) tid = ({ t with completed := true } :: ts, true) := by
        simp [mark_complete, ht]
      rw [h1]
      simp [mark_complete, ht]
    · have h1 : mark_complete (t :: ts) tid =
          (t :: (mark_complete ts tid).1, (mark_complete ts tid).2) := by
        simp [mark_complete, ht]
      rw [h1] at h ⊢
      simp only at h
      have h2 := ih h
      simp [mark_complete, ht, h2]
/-! ## Claims -/

/-- C1: for every store state and every description string (including the
empty string), `add_task description` appends exactly one new task at the end
of the list — the prefix of the old length is the old list unchanged — whose
`id` is the old length plus 1, `completed` is `false` and `description` is
the given string, so the length grows by exactly 1. -/
theorem claim_add_task_appends (ts : List Task) (d : String) :
    (add_task ts d).length = ts.length + 1 ∧
    (add_task ts d).take ts.length = ts ∧
    (add_task ts d).getLast? =
      some { id := (ts.length : Int) + 1, description := d, completed := false } := by
  refine ⟨by simp [add_task], add_task_take ts d, ?_⟩
  simp [add_task]

/-- C2: `mark_complete task_id` returns `true` iff some task has that id;
on success the list splits as `pre ++ t :: post` with `t` the first match
(no task in `pre` matches), and only `t` has its `completed` flag set; on
failure the list is unchanged. -/
theorem claim_mark_complete (ts : List Task) (tid : Int) :
    ((mark_complete ts tid).2 = true ↔ ∃ t ∈ ts, t.id = tid) ∧
    ((mark_complete ts tid).2 = false → (mark_complete ts tid).1 = ts) ∧
    ((mark_complete ts tid).2 = true →
      ∃ pre t post, ts = pre ++ t :: post ∧ t.id = tid ∧ (∀ u ∈ pre, u.id ≠ tid) ∧
        (mark_complete ts tid).1 = pre ++ { t with completed := true } :: post) :=
  ⟨mark_complete_snd_iff ts tid, mark_complete_snd_false ts tid, mark_complete_found ts tid⟩

/-- Witness for C2 at a concrete store: marking a missing id leaves the
one-task list unchanged. -/
theorem claim_mark_complete_witness :
    (mark_complete [{ id := 1, description := "a", completed := false }] 5).1 =
      [{ id := 1, description := "a", completed := false }] :=
  (claim_mark_complete [{ id := 1, description := "a", completed := false }] 5).2.1 (by decide)

/-- C3: `delete_task task_id` returns `true` iff some task has that id; on
success the list splits as `pre ++ t :: post` with `t` the first match and
the result is `pre ++ post` (all other tasks kept, unmodified, in order); on
failure the list is unchanged. -/
theorem claim_delete_task (ts : List Task) (tid : Int) :
    ((delete_task ts tid).2 = true ↔ ∃ t ∈ ts, t.id = tid) ∧
    ((delete_task ts tid).2 = false → (delete_task ts tid).1 = ts) ∧
    ((delete_task ts tid).2 = true →
      ∃ pre t post, ts = pre ++ t :: post ∧ t.id = tid ∧ (∀ u ∈ pre, u.id ≠ tid) ∧
        (delete_task ts tid).1 = pre ++ post) :=
  ⟨delete_task_snd_iff ts tid, delete_task_snd_false ts tid, delete_task_found ts tid⟩

/-- Witness for C3 at a concrete store: deleting a missing id leaves the
one-task list unchanged. -/
theorem claim_delete_task_witness :
    (delete_task [{ id := 1, description := "a", completed := false }] 5).1 =
      [{ id := 1, description := "a", completed := false }] :=
  (claim_delete_task [{ id := 1, description := "a", completed := false }] 5).2.1 (by decide)

/-- C4: `clear_completed` keeps exactly the subsequence of tasks whose
`completed` flag is `false`: the result is a sublist of the input (so the
survivors keep their fields and relative order), no completed task survives,
and every non-completed task survives with its multiplicity intact. -/
theorem claim_clear_completed (ts : List Task) :
    List.Sublist (clear_completed ts) ts ∧
    (∀ t ∈ clear_completed ts, t.completed = false) ∧
    (∀ t : Task, t.completed = false →
      (clear_completed ts).count t = ts.count t) := by
  refine ⟨List.filter_sublist ts, ?_, ?_⟩
  · intro t ht
    have := List.of_mem_filter ht
    simpa using this
  · intro t ht
    exact List.count_filter (by simp [ht])

/-- Witness for C4 at a concrete store: the non-completed task survives with
count 1 and the completed one is gone. -/
theorem claim_clear_completed_witness :
    (clear_completed [{ id := 1, description := "a", completed := true },
        { id := 2, description := "b", completed := false }]).count
      { id := 2, description := "b", completed := false } =
    ([{ id := 1, description := "a", completed := true },
        { id := 2, description := "b", completed := false }] : List Task).count
      { id := 2, description := "b", completed := false } :=
  (claim_clear_completed [{ id := 1, description := "a", completed := true },
      { id := 2, description := "b", completed := false }]).2.2
    { id := 2, description := "b", completed := false } rfl

/-- C5: persistence round-trip — saving the task list and constructing a
fresh store from the same backing file yields an equal task list: same
length and the same `(id, description, completed)` record at every
position. -/
theorem claim_persistence_roundtrip (ts : List Task) :
    load_tasks (some (save_tasks ts)) = ts ∧
    (load_tasks (some (save_tasks ts))).length = ts.length ∧
    ∀ i : Nat, (load_tasks (some (save_tasks ts)))[i]? = ts[i]? := by
  have h : load_tasks (some (save_tasks ts)) = ts := by
    simp [load_tasks, save_tasks, jsonLoad, jsonToTasks_tasksToJson]
  exact ⟨h, by rw [h], fun i => by rw [h]⟩

/-- C6: when the backing file does not exist, or holds any content on which
the decode step raises, `load_tasks` yields the empty task list (the
exception is caught, nothing propagates). -/
theorem claim_load_fallback :
    load_tasks none = [] ∧
    ∀ raw : String, load_tasks (some (.nonJson raw)) = [] :=
  ⟨rfl, fun _ => rfl⟩

/-- C7: id uniqueness is not an invariant — after add "a", add "b",
delete id 1, add "c" (from the empty store) the list holds two distinct
tasks with the same id, because `add_task` derives the id from the current
length. -/
theorem claim_duplicate_ids :
    ∃ t u : Task,
      t ∈ add_task (delete_task (add_task (add_task [] "a") "b") 1).1 "c" ∧
      u ∈ add_task (delete_task (add_task (add_task [] "a") "b") 1).1 "c" ∧
      t ≠ u ∧ t.id = u.id := by
  refine ⟨{ id := 2, description := "b", completed := false },
    { id := 2, description := "c", completed := false }, ?_, ?_, by decide, rfl⟩
  · decide
  · decide

/-- C8: no operation moves a `completed` flag from `true` back to `false`:
`add_task` keeps the whole old list as a prefix, `mark_complete` only turns
flags on (positionally), and `delete_task` and `clear_completed` return
sublists of the input (survivors keep all their fields). -/
theorem claim_completed_monotone (ts : List Task) (d : String) (tid : Int) :
    (add_task ts d).take ts.length = ts ∧
    (∀ i (hi : i < ts.length) (hi2 : i < (mark_complete ts tid).1.length),
      (ts.get ⟨i, hi⟩).completed = true →
      ((mark_complete ts tid).1.get ⟨i, hi2⟩).completed = true) ∧
    List.Sublist (delete_task ts tid).1 ts ∧
    List.Sublist (clear_completed ts) ts := by
  refine ⟨add_task_take ts d, ?_, delete_task_sublist ts tid, List.filter_sublist ts⟩
  intro i hi hi2 hc
  rcases mark_complete_get ts tid i hi hi2 with h | h
  · rw [h]; exact hc
  · rw [h]

/-- Witness for C8 at a concrete store: a completed task stays completed
through `mark_complete` on another id. -/
theorem claim_completed_monotone_witness :
    ((mark_complete [{ id := 1, description := "a", completed := true }] 5).1.get
      ⟨0, by decide⟩).completed = true :=
  (claim_completed_monotone [{ id := 1, description := "a", completed := true }] "d" 5).2.1
    0 (by decide) (by decide) (by decide)

/-- C10: `mark_complete` is idempotent on success — after a successful call,
calling it again with the same id returns `true` and leaves the list exactly
as after the first call. -/
theorem claim_mark_complete_idempotent (ts : List Task) (tid : Int)
    (h : (mark_complete ts tid).2 = true) :
    mark_complete (mark_complete ts tid).1 tid = ((mark_complete ts tid).1, true) :=
  mark_complete_twice ts tid h

/-- Witness for C10 at a concrete store. -/
theorem claim_mark_complete_idempotent_witness :
    mark_complete (mark_complete [{ id := 1, description := "a", completed := false }] 1).1 1 =
      ((mark_complete [{ id := 1, description := "a", completed := false }] 1).1, true) :=
  claim_mark_complete_idempotent [{ id := 1, description := "a", completed := false }] 1
    (by decide)

/-- C9 counterexample: on the line `"a Buy milk"` the claim says the added
description is the text after the first two characters as typed
(`"Buy milk"`), but `main` lowercases the whole line before dispatching, so
the store receives `"buy milk"`. -/
theorem claim_add_preserves_case_counterexample :
    mainStep [] ("a Buy milk".toList) ≠ add_task [] "Buy milk" ∧
    mainStep [] ("a Buy milk".toList) = add_task [] "buy milk" := by
  constructor
  · decide
  · decide

/-- C9 (amended): for every input line whose stripped-and-lowercased form
starts with `"a "`, the loop adds a task whose description is the text after
the first two characters of the **lowercased** trimmed line — the command
token is matched after lowercasing the whole line, so the description's
letter case is not preserved. -/
theorem claim_add_description (ts : List Task) (line : List Char)
    (h : List.isPrefixOf ['a', ' '] (pyLower (pyStrip line)) = true) :
    mainStep ts line = add_task ts (String.mk ((pyLower (pyStrip line)).drop 2)) := by
  unfold mainStep
  rw [dispatch_of_add line h]

/-- Witness for amended C9 at a concrete line. -/
theorem claim_add_description_witness :
    mainStep [] ("a Buy milk".toList) = add_task [] "buy milk" := by
  have h := claim_add_description [] ("a Buy milk".toList) (by decide)
  rw [h]
  decide

end TodoApp
